import Mathlib

/-!
# Verification of the hexa-city rotation / camera-framing core

Shallow embedding of the rotation and camera-framing subsystem of the
`hexa-city` repository:

* `src/app/lib/rotation.ts` — side-index arithmetic and canonical angles;
* `src/unnamed/part_000` (the `CityScene` module) — the `CityGroup`
  side-change accumulator and per-frame damping step, and the
  `AutoFrameCamera` one-shot framing logic.

Side indices are JavaScript integers, modelled as `ℤ`; the JavaScript `%`
operator is the truncated remainder, modelled by `Int.tmod` on integers and
by `jsMod` (truncation toward zero) on reals.  Angles and all other numeric
quantities are JavaScript numbers, modelled as `ℝ`.
-/

namespace HexaCity

/-! ## src/app/lib/rotation.ts -/

/-- `const SIDES = 6` (rotation.ts line 8). -/
def SIDES : ℤ := 6

/-- `const ANGLE_PER_SIDE = (2 * Math.PI) / SIDES` (rotation.ts line 9; the
same constant is re-declared in part_000 line 182). -/
noncomputable def ANGLE_PER_SIDE : ℝ := 2 * Real.pi / (SIDES : ℝ)

/-- `getRotationAngle(side) = side * ANGLE_PER_SIDE` (rotation.ts lines 12-14). -/
noncomputable def getRotationAngle (side : ℤ) : ℝ := (side : ℝ) * ANGLE_PER_SIDE

/-- `getNextSide(current) = (current + 1) % SIDES` (rotation.ts lines 17-19).
JavaScript `%` is the truncated remainder, i.e. `Int.tmod`. -/
def getNextSide (current : ℤ) : ℤ := Int.tmod (current + 1) SIDES

/-- `getPrevSide(current) = (current - 1 + SIDES) % SIDES` (rotation.ts
lines 22-24). -/
def getPrevSide (current : ℤ) : ℤ := Int.tmod (current - 1 + SIDES) SIDES

/-! ## JavaScript `%` on real operands

For finite `a` and `b ≠ 0` the ECMAScript remainder `a % b` is
`a - b * trunc (a / b)`, where `trunc` rounds toward zero, so the result
takes the sign of the dividend `a`. -/

/-- Truncation toward zero (the rounding used by the JavaScript `%` operator). -/
noncomputable def jsTrunc (x : ℝ) : ℤ := if 0 ≤ x then ⌊x⌋ else ⌈x⌉

/-- The JavaScript remainder `a % b` on real operands (`b ≠ 0`). -/
noncomputable def jsMod (a b : ℝ) : ℝ := a - b * (jsTrunc (a / b) : ℝ)

/-! ## src/unnamed/part_000 — configuration constants (lines 24-37) -/

/-- `const SMOOTHING = 5` (line 24). -/
noncomputable def SMOOTHING : ℝ := 5

/-- `const EPSILON = 0.0005` (line 26). -/
noncomputable def EPSILON : ℝ := 0.0005

/-- `const CAMERA_FOV = 75` (line 28), degrees. -/
noncomputable def CAMERA_FOV : ℝ := 75

/-- `const FRAMING_PADDING = 0.7` (line 30). -/
noncomputable def FRAMING_PADDING : ℝ := 0.7

/-- `const MIN_CAMERA_DISTANCE = 5` (line 31). -/
noncomputable def MIN_CAMERA_DISTANCE : ℝ := 5

/-- `const MOBILE_BREAKPOINT = 1000` (line 36). -/
noncomputable def MOBILE_BREAKPOINT : ℝ := 1000

/-- `const MOBILE_DISTANCE_FACTOR = 1.35` (line 37). -/
noncomputable def MOBILE_DISTANCE_FACTOR : ℝ := 1.35

/-! ## CityGroup side-change accumulator (part_000 lines 184-206) -/

/-- Wrap of the jump delta, part_000 line 201:
`delta = ((delta + Math.PI) % (2 * Math.PI)) - Math.PI`. -/
noncomputable def wrapDelta (delta : ℝ) : ℝ :=
  jsMod (delta + Real.pi) (2 * Real.pi) - Real.pi

/-- The mutable state of `CityGroup`'s side-change effect:
`prevSideRef` and `accumulatedRef` (part_000 lines 185-186). -/
structure RotState where
  prevSide : ℤ
  accumulated : ℝ

/-- Initial state (part_000 lines 185-186):
`prevSideRef = currentSide`, `accumulatedRef = getRotationAngle(currentSide)`. -/
noncomputable def initRotState (side : ℤ) : RotState :=
  { prevSide := side, accumulated := getRotationAngle side }

/-- One run of the side-change effect body (part_000 lines 189-206) for a new
value of `currentSide`. -/
noncomputable def applySideChange (s : RotState) (currentSide : ℤ) : RotState :=
  if s.prevSide = currentSide then s
  else
    { prevSide := currentSide
      accumulated :=
        if getNextSide s.prevSide = currentSide then
          s.accumulated + ANGLE_PER_SIDE
        else if getPrevSide s.prevSide = currentSide then
          s.accumulated - ANGLE_PER_SIDE
        else
          s.accumulated +
            wrapDelta (getRotationAngle currentSide - getRotationAngle s.prevSide) }

/-! ## CityGroup per-frame damping (part_000 lines 208-224) -/

/-- One `useFrame` tick (part_000 lines 208-224): given the target
(`accumulatedRef`), the live orientation (`rotation.y`) and the elapsed time
`dt`, return the new orientation. -/
noncomputable def dampStep (target current dt : ℝ) : ℝ :=
  if |target - current| < EPSILON then target
  else current + (target - current) * (1 - Real.exp (-SMOOTHING * dt))

/-- The spec's convergence scenario: `current = 0`, `target = 1.0`, constant
ticks of `dt = 0.016`; `iterDamp n` is the orientation after `n` ticks. -/
noncomputable def iterDamp : ℕ → ℝ
  | 0 => 0
  | n + 1 => dampStep 1 (iterDamp n) 0.016

/-- The per-tick decay ratio of the remaining distance in that scenario:
`exp (-SMOOTHING * dt) = exp (-5 × 0.016) = exp (-0.08)`. -/
noncomputable def decay : ℝ := Real.exp (-(0.08 : ℝ))

/-! ## AutoFrameCamera (part_000 lines 258-309) -/

/-- `THREE.MathUtils.degToRad(deg) = deg * π / 180` (the three.js helper
called at part_000 line 277). -/
noncomputable def degToRad (deg : ℝ) : ℝ := deg * Real.pi / 180

/-- The camera distance computed by `AutoFrameCamera` (part_000 lines
272-283) from the bounding-sphere radius and the viewport width:
pad the radius (line 274), fit it in the vertical FOV with a floor of
`MIN_CAMERA_DISTANCE` (lines 277-278), and push back on narrow viewports
(lines 281-283). -/
noncomputable def computeFrameDistance (sphereRadius width : ℝ) : ℝ :=
  let radius := sphereRadius * FRAMING_PADDING
  let fovRad := degToRad CAMERA_FOV
  let distance := max (radius / Real.tan (fovRad / 2)) MIN_CAMERA_DISTANCE
  if width < MOBILE_BREAKPOINT then distance * MOBILE_DISTANCE_FACTOR
  else distance

/-- The one-shot state of `AutoFrameCamera`: the `hasFramed` ref (part_000
line 260) plus a count of how many times the framing body (lines 269-302)
has run, recording each `NotFramed → Framed` transition. -/
structure FrameState where
  hasFramed : Bool
  framings : ℕ
deriving DecidableEq, Repr

/-- One poll of `AutoFrameCamera` (effect run at lines 262-263 plus the
deferred callback at lines 266-303).  `groupNonempty` is the guard
`groupRef.current && groupRef.current.children.length > 0` (line 263 and the
re-check at line 267); `boxNonempty` is `!box.isEmpty()` (line 270).  Only
when every guard passes does the framing body run and set `hasFramed`
(line 302). -/
def framePoll (s : FrameState) (groupNonempty boxNonempty : Bool) : FrameState :=
  if s.hasFramed then s
  else if !groupNonempty then s
  else if !boxNonempty then s
  else { hasFramed := true, framings := s.framings + 1 }

/-- A sequence of polls, each with its `(groupNonempty, boxNonempty)` inputs. -/
def framePolls (s : FrameState) (polls : List (Bool × Bool)) : FrameState :=
  polls.foldl (fun st p => framePoll st p.1 p.2) s

/-! ## Helper lemmas -/

lemma ANGLE_PER_SIDE_eq : ANGLE_PER_SIDE = 2 * Real.pi / 6 := by
  rw [ANGLE_PER_SIDE, SIDES]; norm_num

lemma getNextSide_ne_self (s : ℤ) (h0 : 0 ≤ s) (h6 : s < 6) :
    getNextSide s ≠ s := by
  interval_cases s <;> decide

lemma getPrevSide_ne_self (s : ℤ) (h0 : 0 ≤ s) (h6 : s < 6) :
    getPrevSide s ≠ s := by
  interval_cases s <;> decide

lemma getNextSide_ne_getPrevSide (s : ℤ) (h0 : 0 ≤ s) (h6 : s < 6) :
    getNextSide s ≠ getPrevSide s := by
  interval_cases s <;> decide

lemma applySideChange_forward (prev : ℤ) (a : ℝ) (h0 : 0 ≤ prev) (h6 : prev < 6) :
    (applySideChange ⟨prev, a⟩ (getNextSide prev)).accumulated
      = a + ANGLE_PER_SIDE := by
  have hne : ¬ prev = getNextSide prev := fun h => getNextSide_ne_self prev h0 h6 h.symm
  simp [applySideChange, hne]

lemma applySideChange_backward (prev : ℤ) (a : ℝ) (h0 : 0 ≤ prev) (h6 : prev < 6) :
    (applySideChange ⟨prev, a⟩ (getPrevSide prev)).accumulated
      = a - ANGLE_PER_SIDE := by
  have hne : ¬ prev = getPrevSide prev := fun h => getPrevSide_ne_self prev h0 h6 h.symm
  have hne' : ¬ getNextSide prev = getPrevSide prev := getNextSide_ne_getPrevSide prev h0 h6
  simp [applySideChange, hne, hne']

/-- Truncated remainder differs from its argument by a multiple of `SIDES = 6`. -/
lemma tmod_SIDES_diff (a : ℤ) :
    ∃ k : ℤ, ((Int.tmod a SIDES : ℤ) : ℝ) = (a : ℝ) - 6 * (k : ℝ) := by
  refine ⟨a.tdiv SIDES, ?_⟩
  have h := Int.tmod_add_tdiv a SIDES
  rw [SIDES] at *
  have h' : Int.tmod a 6 = a - 6 * a.tdiv 6 := by omega
  rw [h']
  push_cast
  ring

/-- The wrap of part_000 line 201 changes the delta by a multiple of `2π`. -/
lemma wrapDelta_sub_multiple (x : ℝ) :
    ∃ k : ℤ, wrapDelta x = x + (k : ℝ) * (2 * Real.pi) := by
  refine ⟨-jsTrunc ((x + Real.pi) / (2 * Real.pi)), ?_⟩
  rw [wrapDelta, jsMod]
  push_cast
  ring

/-- One run of the side-change effect moves the defect
`accumulated - getRotationAngle prevSide` by an integer multiple of `2π`. -/
lemma applySideChange_congr (s : RotState) (c : ℤ) :
    ∃ k : ℤ,
      (applySideChange s c).accumulated
          - getRotationAngle (applySideChange s c).prevSide
        = s.accumulated - getRotationAngle s.prevSide + (k : ℝ) * (2 * Real.pi) := by
  by_cases h0 : s.prevSide = c
  · exact ⟨0, by rw [applySideChange, if_pos h0]; push_cast; ring⟩
  by_cases h1 : getNextSide s.prevSide = c
  · obtain ⟨q, hq⟩ := tmod_SIDES_diff (s.prevSide + 1)
    refine ⟨q, ?_⟩
    rw [applySideChange, if_neg h0]
    simp only [h1, if_pos rfl]
    rw [← h1, getRotationAngle, getRotationAngle, getNextSide, hq, ANGLE_PER_SIDE_eq]
    push_cast
    ring
  by_cases h2 : getPrevSide s.prevSide = c
  · obtain ⟨q, hq⟩ := tmod_SIDES_diff (s.prevSide - 1 + SIDES)
    refine ⟨q - 1, ?_⟩
    rw [applySideChange, if_neg h0]
    simp only [h1, h2, if_neg, if_pos rfl]
    rw [← h2, getRotationAngle, getRotationAngle, getPrevSide, hq, ANGLE_PER_SIDE_eq,
      SIDES]
    push_cast
    ring
  · refine ⟨-jsTrunc ((getRotationAngle c - getRotationAngle s.prevSide + Real.pi)
      / (2 * Real.pi)), ?_⟩
    rw [applySideChange, if_neg h0]
    simp only [h1, h2, if_neg, if_false]
    rw [wrapDelta, jsMod]
    push_cast
    ring

/-- Folding any event list multiplies out to one integer multiple of `2π`. -/
lemma foldl_applySideChange_congr (events : List ℤ) :
    ∀ s : RotState, ∃ k : ℤ,
      (events.foldl applySideChange s).accumulated
          - getRotationAngle (events.foldl applySideChange s).prevSide
        = s.accumulated - getRotationAngle s.prevSide + (k : ℝ) * (2 * Real.pi) := by
  induction events with
  | nil => exact fun s => ⟨0, by simp [List.foldl_nil]⟩
  | cons c cs ih =>
    intro s
    obtain ⟨k1, h1⟩ := applySideChange_congr s c
    obtain ⟨k2, h2⟩ := ih (applySideChange s c)
    refine ⟨k1 + k2, ?_⟩
    rw [List.foldl_cons, h2, h1]
    push_cast
    ring

lemma jsTrunc_neg_one_sixth : jsTrunc (-(1 / 6 : ℝ)) = 0 := by
  rw [jsTrunc, if_neg (by norm_num)]
  rw [Int.ceil_eq_zero_iff]
  constructor <;> norm_num

/-- The value the generic-jump branch adds for the change `4 → 0`:
`delta = -4π/3`, and the JavaScript remainder keeps the dividend's sign, so
`((-4π/3 + π) % 2π) - π = (-π/3) - π = -4π/3`. -/
lemma wrapDelta_neg_four_thirds_pi :
    wrapDelta (-(4 * Real.pi / 3)) = -(4 * Real.pi / 3) := by
  have hpi := Real.pi_pos
  have h2pi : (2 : ℝ) * Real.pi ≠ 0 := by positivity
  have harg : -(4 * Real.pi / 3) + Real.pi = -(Real.pi / 3) := by ring
  have hdiv : (-(Real.pi / 3)) / (2 * Real.pi) = -(1 / 6 : ℝ) := by
    rw [div_eq_iff h2pi]; ring
  rw [wrapDelta, jsMod, harg, hdiv, jsTrunc_neg_one_sixth]
  push_cast
  ring

/-! ## Claim theorems -/

/-- C1 (code bug): the generic-jump branch of the side-change handler is
meant to wrap the delta into `(−π, π]` (the shortest arc; the source comments
"take shortest path" at part_000 line 199), but the JavaScript `%` keeps the
dividend's sign.  For the non-adjacent change `4 → 0` (both sides in `[0,6)`)
the branch adds `−4π/3` to the accumulated rotation: its magnitude exceeds
`π`, so the rotation is not a shortest arc and lies outside `(−π, π]`. -/
theorem jump_from_4_to_0_not_shortest_arc :
    ∀ a : ℝ,
      getNextSide 4 ≠ 0 ∧ getPrevSide 4 ≠ 0 ∧
      (applySideChange ⟨4, a⟩ 0).accumulated - a = -(4 * Real.pi / 3) ∧
      Real.pi < |(applySideChange ⟨4, a⟩ 0).accumulated - a| := by
  intro a
  have hpi := Real.pi_pos
  have h0 : ¬ ((4 : ℤ) = 0) := by decide
  have h1 : getNextSide 4 ≠ 0 := by decide
  have h2 : getPrevSide 4 ≠ 0 := by decide
  have hval : (applySideChange ⟨4, a⟩ 0).accumulated
      = a + wrapDelta (getRotationAngle 0 - getRotationAngle 4) := by
    simp [applySideChange, h0, h1, h2]
  have hrot : getRotationAngle 0 - getRotationAngle (4 : ℤ) = -(4 * Real.pi / 3) := by
    rw [getRotationAngle, getRotationAngle, ANGLE_PER_SIDE_eq]
    push_cast
    ring
  rw [hval, hrot, wrapDelta_neg_four_thirds_pi]
  have hsub : a + -(4 * Real.pi / 3) - a = -(4 * Real.pi / 3) := by ring
  refine ⟨h1, h2, hsub, ?_⟩
  rw [hsub, abs_neg, abs_of_nonneg (by positivity)]
  linarith

/-- C2: after any finite sequence of side-change events, each side in `[0,6)`,
starting from the initial state `accumulated = getRotationAngle s0`, the
accumulated rotation is congruent to the canonical angle of the current side
modulo `2π`. -/
theorem accumulated_congruent_canonical_mod_two_pi (events : List ℤ) (s0 : ℤ)
    (hs0 : 0 ≤ s0 ∧ s0 < 6)
    (hev : ∀ e ∈ events, 0 ≤ e ∧ e < 6) :
    ∃ k : ℤ,
      (events.foldl applySideChange (initRotState s0)).accumulated
          - getRotationAngle
              (events.foldl applySideChange (initRotState s0)).prevSide
        = (k : ℝ) * (2 * Real.pi) := by
  obtain ⟨k, hk⟩ := foldl_applySideChange_congr events (initRotState s0)
  refine ⟨k, ?_⟩
  rw [hk]
  simp only [initRotState]
  ring

theorem accumulated_congruent_canonical_mod_two_pi_witness :
    (((0 : ℤ) ≤ 0 ∧ (0 : ℤ) < 6) ∧ (∀ e ∈ ([3, 1] : List ℤ), 0 ≤ e ∧ e < 6)) ∧
      ∃ k : ℤ,
        (([3, 1] : List ℤ).foldl applySideChange (initRotState 0)).accumulated
            - getRotationAngle
                (([3, 1] : List ℤ).foldl applySideChange (initRotState 0)).prevSide
          = (k : ℝ) * (2 * Real.pi) :=
  ⟨⟨by norm_num, by decide⟩,
    accumulated_congruent_canonical_mod_two_pi [3, 1] 0 (by norm_num) (by decide)⟩

/-- C7: for sides in `[0,6)`, a forward step (`next = getNextSide prev`) adds
exactly `+2π/6` to the accumulated rotation, a backward step
(`next = getPrevSide prev`) adds exactly `−2π/6`, and `prev = next` leaves the
state unchanged. -/
theorem sideChange_adjacent_and_noop (prev next : ℤ) (a : ℝ)
    (hp : 0 ≤ prev ∧ prev < 6) (hn : 0 ≤ next ∧ next < 6) :
    (next = getNextSide prev →
        (applySideChange ⟨prev, a⟩ next).accumulated = a + 2 * Real.pi / 6) ∧
    (next = getPrevSide prev →
        (applySideChange ⟨prev, a⟩ next).accumulated = a - 2 * Real.pi / 6) ∧
    (prev = next → applySideChange ⟨prev, a⟩ next = ⟨prev, a⟩) := by
  refine ⟨fun h => ?_, fun h => ?_, fun h => ?_⟩
  · subst h
    rw [applySideChange_forward prev a hp.1 hp.2, ANGLE_PER_SIDE_eq]
  · subst h
    rw [applySideChange_backward prev a hp.1 hp.2, ANGLE_PER_SIDE_eq]
  · simp [applySideChange, h]

theorem sideChange_adjacent_and_noop_witness :
    (((0 : ℤ) ≤ 0 ∧ (0 : ℤ) < 6) ∧ ((0 : ℤ) ≤ 1 ∧ (1 : ℤ) < 6)) ∧
      (applySideChange ⟨0, (0 : ℝ)⟩ 1).accumulated = 0 + 2 * Real.pi / 6 :=
  ⟨⟨by norm_num, by norm_num⟩,
    (sideChange_adjacent_and_noop 0 1 0 (by norm_num) (by norm_num)).1 (by decide)⟩

/-- C9: for every side `s` in `[0,6)`, `getNextSide` and `getPrevSide` are
mutually inverse: `getNextSide (getPrevSide s) = s` and
`getPrevSide (getNextSide s) = s`. -/
theorem nextSide_prevSide_inverse (s : ℤ) (h0 : 0 ≤ s) (h6 : s < 6) :
    getNextSide (getPrevSide s) = s ∧ getPrevSide (getNextSide s) = s := by
  interval_cases s <;> exact ⟨by decide, by decide⟩

theorem nextSide_prevSide_inverse_witness :
    ((0 : ℤ) ≤ 3 ∧ (3 : ℤ) < 6) ∧
      (getNextSide (getPrevSide 3) = 3 ∧ getPrevSide (getNextSide 3) = 3) :=
  ⟨by norm_num, nextSide_prevSide_inverse 3 (by norm_num) (by norm_num)⟩

/-- C3: for every `target`, `current` and `dt > 0`, one damping tick snaps
`current` to `target` exactly when `|target − current| < 5×10⁻⁴`, and
otherwise moves `current` by `(target − current) · (1 − exp(−5·dt))`. -/
theorem dampStep_snap_or_ease (target current dt : ℝ) (hdt : 0 < dt) :
    (|target - current| < 5 / 10 ^ 4 → dampStep target current dt = target) ∧
    (¬ |target - current| < 5 / 10 ^ 4 →
        dampStep target current dt
          = current + (target - current) * (1 - Real.exp (-(5 * dt)))) := by
  have hE : EPSILON = 5 / 10 ^ 4 := by rw [EPSILON]; norm_num
  have hS : -SMOOTHING * dt = -(5 * dt) := by rw [SMOOTHING]; ring
  constructor
  · intro h
    rw [dampStep, if_pos (by rw [hE]; exact h)]
  · intro h
    rw [dampStep, if_neg (by rw [hE]; exact h), hS]

theorem dampStep_snap_or_ease_witness :
    ((0 : ℝ) < 1 ∧ ¬ |(1 : ℝ) - 0| < 5 / 10 ^ 4) ∧
      dampStep 1 0 1 = 0 + (1 - 0) * (1 - Real.exp (-(5 * 1))) :=
  ⟨⟨by norm_num, by norm_num⟩,
    (dampStep_snap_or_ease 1 0 1 (by norm_num)).2 (by norm_num)⟩

/-- C8: a damping tick with `dt = 0` (paused clock) and the orientation not
yet within `ε` of the target computes the interpolation factor
`1 − exp(−5·0) = 0` and leaves the orientation unchanged; the computation
involves no division. -/
theorem dampStep_zero_dt_unchanged (target current : ℝ)
    (h : 5 / 10 ^ 4 ≤ |target - current|) :
    1 - Real.exp (-SMOOTHING * 0) = 0 ∧ dampStep target current 0 = current := by
  have hS : -SMOOTHING * (0 : ℝ) = 0 := by ring
  have hfac : 1 - Real.exp (-SMOOTHING * (0 : ℝ)) = 0 := by
    rw [hS, Real.exp_zero]; ring
  refine ⟨hfac, ?_⟩
  have hE : EPSILON ≤ |target - current| := le_trans (by rw [EPSILON]; norm_num) h
  rw [dampStep, if_neg (not_lt.mpr hE), hS, Real.exp_zero]
  ring

theorem dampStep_zero_dt_unchanged_witness :
    ((5 : ℝ) / 10 ^ 4 ≤ |(1 : ℝ) - 0|) ∧ dampStep 1 0 0 = 0 :=
  ⟨by norm_num, (dampStep_zero_dt_unchanged 1 0 (by norm_num)).2⟩

/-- C10: the damping step never overshoots: for `dt ≥ 0` the interpolation
factor `1 − exp(−5·dt)` lies in `[0, 1)`, the new orientation lies in the
closed interval between the old orientation and the target, and the distance
to the target never increases in one tick. -/
theorem dampStep_no_overshoot (target current dt : ℝ) (hdt : 0 ≤ dt) :
    (0 ≤ 1 - Real.exp (-SMOOTHING * dt) ∧ 1 - Real.exp (-SMOOTHING * dt) < 1) ∧
    min current target ≤ dampStep target current dt ∧
    dampStep target current dt ≤ max current target ∧
    |target - dampStep target current dt| ≤ |target - current| := by
  have hexp_pos : 0 < Real.exp (-SMOOTHING * dt) := Real.exp_pos _
  have hexp_le : Real.exp (-SMOOTHING * dt) ≤ 1 := by
    rw [Real.exp_le_one_iff, SMOOTHING]
    nlinarith
  refine ⟨⟨by linarith, by linarith⟩, ?_⟩
  rw [dampStep]
  by_cases hsnap : |target - current| < EPSILON
  · rw [if_pos hsnap]
    exact ⟨min_le_right _ _, le_max_right _ _, by simp⟩
  · rw [if_neg hsnap]
    have hf0 : 0 ≤ 1 - Real.exp (-SMOOTHING * dt) := by linarith
    have hf1 : 1 - Real.exp (-SMOOTHING * dt) ≤ 1 := by linarith
    refine ⟨?_, ?_, ?_⟩
    · rcases le_total current target with hc | hc
      · rw [min_eq_left hc]; nlinarith
      · rw [min_eq_right hc]; nlinarith
    · rcases le_total current target with hc | hc
      · rw [max_eq_right hc]; nlinarith
      · rw [max_eq_left hc]; nlinarith
    · have hrw : target - (current + (target - current) * (1 - Real.exp (-SMOOTHING * dt)))
          = (target - current) * Real.exp (-SMOOTHING * dt) := by ring
      rw [hrw, abs_mul, abs_of_pos hexp_pos]
      nlinarith [abs_nonneg (target - current)]

theorem dampStep_no_overshoot_witness :
    ((0 : ℝ) ≤ 1) ∧ |1 - dampStep 1 0 1| ≤ |(1 : ℝ) - 0| :=
  ⟨by norm_num, (dampStep_no_overshoot 1 0 1 (by norm_num)).2.2.2⟩

lemma half_fov_angle : degToRad CAMERA_FOV / 2 = 37.5 * Real.pi / 180 := by
  rw [degToRad, CAMERA_FOV]
  ring

/-- C4: the auto-framing camera distance is
`max ((R × 0.7) / tan (37.5°), 5)` for bounding-sphere radius `R`
(fov = 75°, so the half angle is 37.5°), and a viewport strictly narrower
than 1000 multiplies it by 1.35. -/
theorem frameDistance_formula (R w : ℝ) :
    (¬ w < 1000 →
        computeFrameDistance R w
          = max (R * 0.7 / Real.tan (37.5 * Real.pi / 180)) 5) ∧
    (w < 1000 →
        computeFrameDistance R w
          = max (R * 0.7 / Real.tan (37.5 * Real.pi / 180)) 5 * 1.35) := by
  have hb : MOBILE_BREAKPOINT = (1000 : ℝ) := by rw [MOBILE_BREAKPOINT]
  constructor
  · intro h
    rw [computeFrameDistance]
    simp only [FRAMING_PADDING, MIN_CAMERA_DISTANCE, half_fov_angle, hb,
      MOBILE_DISTANCE_FACTOR]
    rw [if_neg h]
  · intro h
    rw [computeFrameDistance]
    simp only [FRAMING_PADDING, MIN_CAMERA_DISTANCE, half_fov_angle, hb,
      MOBILE_DISTANCE_FACTOR]
    rw [if_pos h]

theorem frameDistance_formula_witness :
    (¬ (1000 : ℝ) < 1000 ∧
        computeFrameDistance 10 1000
          = max (10 * 0.7 / Real.tan (37.5 * Real.pi / 180)) 5) ∧
    ((500 : ℝ) < 1000 ∧
        computeFrameDistance 10 500
          = max (10 * 0.7 / Real.tan (37.5 * Real.pi / 180)) 5 * 1.35) :=
  ⟨⟨by norm_num, (frameDistance_formula 10 1000).1 (by norm_num)⟩,
    ⟨by norm_num, (frameDistance_formula 10 500).2 (by norm_num)⟩⟩

lemma framePoll_framed (s : FrameState) (g b : Bool) (h : s.hasFramed = true) :
    framePoll s g b = s := by
  simp [framePoll, h]

lemma framePolls_framed (polls : List (Bool × Bool)) :
    ∀ s : FrameState, s.hasFramed = true → framePolls s polls = s := by
  induction polls with
  | nil => intro s _; rfl
  | cons p ps ih =>
    intro s h
    show framePolls (framePoll s p.1 p.2) ps = s
    rw [framePoll_framed s p.1 p.2 h]
    exact ih s h

lemma framePoll_unframed_cases (s : FrameState) (g b : Bool)
    (hs : s.hasFramed = false) :
    framePoll s g b = s ∨ framePoll s g b = ⟨true, s.framings + 1⟩ := by
  rw [framePoll, hs]
  cases g <;> cases b <;> simp

lemma framePolls_framings_le (polls : List (Bool × Bool)) :
    ∀ s : FrameState, s.hasFramed = false →
      (framePolls s polls).framings ≤ s.framings + 1 := by
  induction polls with
  | nil => intro s _; exact Nat.le_succ _
  | cons p ps ih =>
    intro s hs
    show (framePolls (framePoll s p.1 p.2) ps).framings ≤ s.framings + 1
    rcases framePoll_unframed_cases s p.1 p.2 hs with h | h
    · rw [h]; exact ih s hs
    · rw [h, framePolls_framed ps _ rfl]

/-- C5: the auto-framing state machine is one-shot: once `hasFramed` holds,
any further sequence of polls leaves the state untouched (no re-framing, no
return to the unframed state), and from the initial unframed state the
framing body runs at most once over any poll sequence. -/
theorem autoFrame_one_shot (polls : List (Bool × Bool)) :
    (∀ s : FrameState, s.hasFramed = true → framePolls s polls = s) ∧
    (framePolls { hasFramed := false, framings := 0 } polls).framings ≤ 1 := by
  refine ⟨framePolls_framed polls, ?_⟩
  exact framePolls_framings_le polls _ rfl

/-! ### Convergence of the damping iteration (C6)

In the spec scenario the remaining distance is multiplied by
`decay = exp(-0.08)` each tick until it drops below `EPSILON`, which first
happens after 96 ticks: `exp(-0.08)⁻⁹⁵ ≥ 1/2000` but `exp(-0.08)⁻⁹⁶ < 1/2000`
(numerically `exp(7.6) ≈ 1998.2 < 2000 < 2164 ≈ exp(7.68)`). -/

lemma exp_smoothing_dt : -SMOOTHING * (0.016 : ℝ) = -(0.08 : ℝ) := by
  rw [SMOOTHING]
  norm_num

lemma decay_pos : 0 < decay := Real.exp_pos _

lemma decay_lt_one : decay < 1 := by
  rw [decay, Real.exp_lt_one_iff]
  norm_num

lemma exp_008_lb : (1.08328 : ℝ) ≤ Real.exp 0.08 := by
  have h := Real.sum_le_exp_of_nonneg (by norm_num : (0 : ℝ) ≤ 0.08) 4
  norm_num [Finset.sum_range_succ, Nat.factorial] at h ⊢
  linarith

lemma exp_008_ub : Real.exp 0.08 ≤ (1.08329 : ℝ) := by
  have h := Real.exp_bound' (by norm_num : (0 : ℝ) ≤ 0.08) (by norm_num : (0.08 : ℝ) ≤ 1)
    (by norm_num : 0 < 4)
  norm_num [Finset.sum_range_succ, Nat.factorial] at h ⊢
  linarith

lemma decay_pow_eq (n : ℕ) : decay ^ n = (Real.exp 0.08 ^ n)⁻¹ := by
  rw [decay, Real.exp_neg, inv_pow]

lemma eps_le_decay_pow_95 : EPSILON ≤ decay ^ 95 := by
  have hE : Real.exp 0.08 ^ 95 ≤ 2000 :=
    calc Real.exp 0.08 ^ 95 ≤ (1.08329 : ℝ) ^ 95 :=
          pow_le_pow_left₀ (Real.exp_pos _).le exp_008_ub 95
      _ ≤ 2000 := by norm_num
  have hpos : (0 : ℝ) < Real.exp 0.08 ^ 95 := pow_pos (Real.exp_pos _) _
  rw [decay_pow_eq, EPSILON]
  nlinarith [mul_inv_cancel₀ (ne_of_gt hpos), inv_nonneg.mpr hpos.le]

lemma decay_pow_96_lt_eps : decay ^ 96 < EPSILON := by
  have hE : (2000 : ℝ) < Real.exp 0.08 ^ 96 :=
    calc (2000 : ℝ) < (1.08328 : ℝ) ^ 96 := by norm_num
      _ ≤ Real.exp 0.08 ^ 96 := pow_le_pow_left₀ (by norm_num) exp_008_lb 96
  have hpos : (0 : ℝ) < Real.exp 0.08 ^ 96 := pow_pos (Real.exp_pos _) _
  rw [decay_pow_eq, EPSILON]
  nlinarith [mul_inv_cancel₀ (ne_of_gt hpos), inv_pos.mpr hpos]

lemma iterDamp_eq (n : ℕ) (hn : n ≤ 96) : iterDamp n = 1 - decay ^ n := by
  induction n with
  | zero => norm_num [iterDamp]
  | succ m ih =>
    have hm95 : m ≤ 95 := by omega
    have hdm : EPSILON ≤ decay ^ m :=
      le_trans eps_le_decay_pow_95
        (pow_le_pow_of_le_one decay_pos.le decay_lt_one.le hm95)
    show dampStep 1 (iterDamp m) 0.016 = 1 - decay ^ (m + 1)
    rw [ih (by omega)]
    have habs : |1 - (1 - decay ^ m)| = decay ^ m := by
      rw [show (1 : ℝ) - (1 - decay ^ m) = decay ^ m by ring]
      exact abs_of_nonneg (pow_nonneg decay_pos.le m)
    rw [dampStep, habs, if_neg (not_lt.mpr hdm), exp_smoothing_dt,
      show Real.exp (-(0.08 : ℝ)) = decay from rfl]
    ring

lemma abs_dist_iterDamp (n : ℕ) (hn : n ≤ 96) : |1 - iterDamp n| = decay ^ n := by
  rw [iterDamp_eq n hn, show (1 : ℝ) - (1 - decay ^ n) = decay ^ n by ring]
  exact abs_of_nonneg (pow_nonneg decay_pos.le n)

/-- C6: starting from `current = 0`, `target = 1`, `k = 5`, feeding constant
ticks of `dt = 0.016`, the distance to the target strictly decreases on every
tick up to tick `N = 96`, after `N` ticks the distance is within
`ε = 5×10⁻⁴`, and the following tick snaps `current` to the target exactly. -/
theorem damping_iteration_converges :
    ∃ N : ℕ, 0 < N ∧ |1 - iterDamp N| < EPSILON ∧
      (∀ n < N, |1 - iterDamp (n + 1)| < |1 - iterDamp n|) ∧
      iterDamp (N + 1) = 1 := by
  refine ⟨96, by norm_num, ?_, ?_, ?_⟩
  · rw [abs_dist_iterDamp 96 le_rfl]
    exact decay_pow_96_lt_eps
  · intro n hn
    rw [abs_dist_iterDamp n (by omega), abs_dist_iterDamp (n + 1) (by omega), pow_succ]
    nlinarith [pow_pos decay_pos n, decay_lt_one]
  · have h96 : |1 - iterDamp 96| < EPSILON := by
      rw [abs_dist_iterDamp 96 le_rfl]
      exact decay_pow_96_lt_eps
    show dampStep 1 (iterDamp 96) 0.016 = 1
    rw [dampStep, if_pos h96]

end HexaCity
